import Mathlib

/-!
Verification of the ShinySDR spectrum-display client
(src/shinysdr/webstatic/client/widget.js) against its specification.

JavaScript numbers are modelled as real numbers; NaN, where it matters
(center frequencies, color values), is modelled explicitly with Option
or a dedicated JSNum type.  Stateful widget code is modelled by explicit
state passing.
-/

namespace ShinySDR

/-! ### The mod helper (widget.js lines 31-33)

function mod(value, modulus) { return (value % modulus + modulus) % modulus; }

The JS remainder operator on finite numbers is value - modulus * trunc(value/modulus),
where trunc rounds toward zero. -/

/-- Truncation toward zero, the rounding used by the JS remainder operator. -/
noncomputable def jsTrunc (x : ℝ) : ℤ := if 0 ≤ x then ⌊x⌋ else ⌈x⌉

/-- The JS remainder operator v % m on finite numbers. -/
noncomputable def jsRem (v m : ℝ) : ℝ := v - m * (jsTrunc (v / m) : ℝ)

/-- The helper mod(value, modulus) from widget.js lines 31-33. -/
noncomputable def jsMod (v m : ℝ) : ℝ := jsRem (jsRem v m + m) m

lemma jsRem_eq_fract {v m : ℝ} (hm : 0 < m) (hx : 0 ≤ v / m) :
    jsRem v m = m * Int.fract (v / m) := by
  have hmv : m * (v / m) = v := by field_simp
  rw [jsRem, jsTrunc, if_pos hx, Int.fract, mul_sub, hmv]

lemma jsRem_nonneg_bounds {v m : ℝ} (hm : 0 < m) (hv : 0 ≤ v) :
    0 ≤ jsRem v m ∧ jsRem v m < m := by
  have hx : 0 ≤ v / m := div_nonneg hv hm.le
  rw [jsRem_eq_fract hm hx]
  constructor
  · exact mul_nonneg hm.le (Int.fract_nonneg _)
  · calc m * Int.fract (v / m) < m * 1 :=
          (mul_lt_mul_left hm).mpr (Int.fract_lt_one _)
      _ = m := mul_one m

lemma jsRem_gt_neg {v m : ℝ} (hm : 0 < m) : -m < jsRem v m := by
  rcases le_or_lt 0 (v / m) with hx | hx
  · rw [jsRem_eq_fract hm hx]
    have : 0 ≤ m * Int.fract (v / m) := mul_nonneg hm.le (Int.fract_nonneg _)
    linarith
  · have hmv : m * (v / m) = v := by field_simp
    have hrem : jsRem v m = m * (v / m - (⌈v / m⌉ : ℝ)) := by
      rw [jsRem, jsTrunc, if_neg (not_le.mpr hx), mul_sub, hmv]
    rw [hrem]
    have h1 : (⌈v / m⌉ : ℝ) < v / m + 1 := Int.ceil_lt_add_one _
    have h2 : v / m - (⌈v / m⌉ : ℝ) > -1 := by linarith
    nlinarith

lemma jsMod_mem_Ico {v m : ℝ} (hm : 0 < m) : 0 ≤ jsMod v m ∧ jsMod v m < m := by
  have h1 : -m < jsRem v m := jsRem_gt_neg hm
  have h2 : 0 ≤ jsRem v m + m := by linarith
  exact jsRem_nonneg_bounds hm h2

/-! ### Coordinate model: SpectrumView (widget.js lines 211-342)

Per-prepare derived parameters (lines 242-254):
  leftFreq = centerFreq - bandwidth / 2
  pixelWidth = container.offsetWidth
  pixelsPerHertz = pixelWidth / bandwidth * zoom
The zoom state (lines 232-240) is the pair (zoom, virtual scroll), where the
virtual scroll is split into the integer-quantized container.scrollLeft plus
the in-memory fractionalScroll remainder. -/

/-- External inputs read by prepare(): bandwidth (radio.input_rate), tuned
center frequency (source.freq), the viewport width (container.offsetWidth),
and the current spectrum FFT length (radio.spectrum_fft.get().length). -/
structure ViewEnv where
  bandwidth : ℝ
  centerFreq : ℝ
  pixelWidth : ℝ
  totalBins : ℕ

/-- Zoom state of a SpectrumView: zoom, container.scrollLeft as stored by the
browser, and the fractionalScroll remainder kept in memory. -/
structure ViewState where
  zoom : ℝ
  scrollLeft : ℝ
  fractionalScroll : ℝ

noncomputable def leftFreq (e : ViewEnv) : ℝ := e.centerFreq - e.bandwidth / 2

noncomputable def pixelsPerHertz (e : ViewEnv) (zoom : ℝ) : ℝ := e.pixelWidth / e.bandwidth * zoom

/-- leftVisibleFreq (widget.js lines 285-287). -/
noncomputable def leftVisibleFreq (e : ViewEnv) (s : ViewState) : ℝ :=
  leftFreq e + s.scrollLeft / pixelsPerHertz e s.zoom

/-- rightVisibleFreq (widget.js lines 288-290). -/
noncomputable def rightVisibleFreq (e : ViewEnv) (s : ViewState) : ℝ :=
  leftFreq e + (s.scrollLeft + e.pixelWidth) / pixelsPerHertz e s.zoom

/-- The frequency the coordinate model places under cursor pixel x: the
interpolation computed by changeZoom (widget.js lines 311-315), after the
cursor position is adjusted by the stored fractionalScroll. -/
noncomputable def freqAtPixel (e : ViewEnv) (s : ViewState) (x : ℝ) : ℝ :=
  let cursor01 := (x + s.fractionalScroll) / e.pixelWidth
  leftVisibleFreq e s * (1 - cursor01) + rightVisibleFreq e s * cursor01

/-- MAX_ZOOM_BINS (widget.js line 212). -/
def MAX_ZOOM_BINS : ℕ := 60

/-- The zoom bound computed at the top of changeZoom (widget.js lines 305-309). -/
noncomputable def maxZoom (e : ViewEnv) : ℝ :=
  max 1 (max (e.bandwidth / 100000) ((e.totalBins : ℝ) / (MAX_ZOOM_BINS : ℝ)))

/-- The new zoom factor: multiply by exp(-delta * 0.0005), clamp to
[1, maxZoom] (widget.js lines 318-320). -/
noncomputable def newZoom (e : ViewEnv) (s : ViewState) (delta : ℝ) : ℝ :=
  min (maxZoom e) (max 1 (s.zoom * Real.exp (-delta * 0.0005)))

/-- The scroll value before clamping (widget.js lines 325-333): the current
virtual scroll plus the pixel delta between the old and new mapping of the
cursor frequency, measured with the recomputed pixelsPerHertz. -/
noncomputable def scrollUnclamped (e : ViewEnv) (s : ViewState) (delta cursorX : ℝ) : ℝ :=
  let z2 := newZoom e s delta
  let s1 : ViewState := ⟨z2, s.scrollLeft, s.fractionalScroll⟩
  (s.scrollLeft + s.fractionalScroll) +
    (freqAtPixel e s cursorX - freqAtPixel e s1 cursorX) * pixelsPerHertz e z2

/-- The clamped scroll written back (widget.js line 333):
scroll = Math.max(0, Math.min(w - pixelWidth, ...)) with w = pixelWidth * zoom. -/
noncomputable def scrollAdjusted (e : ViewEnv) (s : ViewState) (delta cursorX : ℝ) : ℝ :=
  max 0 (min (e.pixelWidth * newZoom e s delta - e.pixelWidth)
    (scrollUnclamped e s delta cursorX))

/-- changeZoom (widget.js lines 304-342).  Writing container.scrollLeft stores
a browser-quantized value, modelled by the arbitrary function quant; the code
then keeps the exact remainder in fractionalScroll (line 336), so the virtual
scroll scrollLeft + fractionalScroll equals the computed scroll exactly. -/
noncomputable def changeZoom (quant : ℝ → ℝ) (e : ViewEnv) (s : ViewState)
    (delta cursorX : ℝ) : ViewState :=
  let z2 := newZoom e s delta
  let scroll2 := scrollAdjusted e s delta cursorX
  ⟨z2, quant scroll2, scroll2 - quant scroll2⟩

/-- The true sub-pixel scroll position scrollPixels + fractionalScroll. -/
noncomputable def virtualScroll (s : ViewState) : ℝ := s.scrollLeft + s.fractionalScroll

/-- Zoom initial state (widget.js lines 234-240): zoom and scroll are read
from persisted storage, container.scrollLeft is assigned Math.floor(scroll)
(which the browser clamps to the scrollable range [0, pixelWidth*zoom -
pixelWidth]), and fractionalScroll is set to mod(scroll, 1).  As the TODO on
line 235 notes, nothing here is clamped the way changeZoom clamps. -/
noncomputable def initViewState (pixelWidth zoomStored scrollStored : ℝ) : ViewState :=
  ⟨zoomStored,
   max 0 (min (pixelWidth * zoomStored - pixelWidth) ((⌊scrollStored⌋ : ℤ) : ℝ)),
   jsMod scrollStored 1⟩

/-- The virtual scroll is a convenient normal form for freqAtPixel. -/
lemma freqAtPixel_eq (e : ViewEnv) (s : ViewState) (x : ℝ)
    (hW : e.pixelWidth ≠ 0) (hB : e.bandwidth ≠ 0) (hz : s.zoom ≠ 0) :
    freqAtPixel e s x =
      leftFreq e + (s.scrollLeft + s.fractionalScroll + x) / pixelsPerHertz e s.zoom := by
  have hp : pixelsPerHertz e s.zoom ≠ 0 := by
    rw [pixelsPerHertz]
    exact mul_ne_zero (div_ne_zero hW hB) hz
  rw [freqAtPixel, leftVisibleFreq, rightVisibleFreq]
  field_simp
  ring

/-! ### Averaging stage: SpectrumPlot commonNewData (widget.js lines 788-810)

A frame is a bundle (centerFrequency, magnitudes).  The center frequency may
be NaN ("unknown"); NaN is modelled as the value none of Option.  The state
holds averageBuffer (null before the first ingest, modelled none) and
lastDrawnCenterFreq (initialized to NaN, line 789). -/

structure AvgState where
  averageBuffer : Option (List ℝ)
  lastDrawnCenterFreq : Option ℝ

/-- JS strict inequality a !== b on numbers: true whenever either side is NaN
(modelled none), otherwise plain disequality. -/
def jsStrictNe (a b : Option ℝ) : Prop :=
  match a, b with
  | none, _ => True
  | some _, none => True
  | some x, some y => x ≠ y

/-- One pass of the per-bin averaging loop (widget.js lines 807-809):
avg[i] = avg[i] * (1 - alpha) + incoming[i] * alpha.  The loop bound is the
incoming length; every reachable call has both lists of that same length. -/
def blend (alpha : ℝ) (avg buffer : List ℝ) : List ℝ :=
  List.zipWith (fun a b => a * (1 - alpha) + b * alpha) avg buffer

open Classical in
/-- commonNewData (widget.js lines 790-810).  If the average buffer is null,
has a different length than the incoming frame, or the (non-NaN) center
frequency changed, record the new frequency and reinitialize the buffer as a
copy of the incoming magnitudes; then run the blending loop in every case. -/
noncomputable def commonNewData (alpha : ℝ) (frameFreq : Option ℝ) (buffer : List ℝ)
    (st : AvgState) : AvgState :=
  let doReset := st.averageBuffer = none
      ∨ (st.averageBuffer.getD []).length ≠ buffer.length
      ∨ (jsStrictNe st.lastDrawnCenterFreq frameFreq ∧ frameFreq ≠ none)
  let st1 := if doReset then AvgState.mk (some buffer) frameFreq else st
  ⟨some (blend alpha (st1.averageBuffer.getD []) buffer), st1.lastDrawnCenterFreq⟩

/-- n repeated ingests of the same frame through commonNewData. -/
noncomputable def ingestN (alpha : ℝ) (frameFreq : Option ℝ) (buffer : List ℝ)
    (st : AvgState) : ℕ → AvgState
  | 0 => st
  | n + 1 => commonNewData alpha frameFreq buffer (ingestN alpha frameFreq buffer st n)

lemma blend_self (alpha : ℝ) (l : List ℝ) : blend alpha l l = l := by
  induction l with
  | nil => rfl
  | cons a t ih =>
      simp only [blend, List.zipWith_cons_cons] at *
      rw [ih]
      congr 1
      ring

lemma commonNewData_reset (alpha : ℝ) (f : ℝ) (buffer : List ℝ) (st : AvgState)
    (hne : jsStrictNe st.lastDrawnCenterFreq (some f)) :
    commonNewData alpha (some f) buffer st = ⟨some buffer, some f⟩ := by
  have hcond : st.averageBuffer = none
      ∨ (st.averageBuffer.getD []).length ≠ buffer.length
      ∨ (jsStrictNe st.lastDrawnCenterFreq (some f) ∧ (some f : Option ℝ) ≠ none) :=
    Or.inr (Or.inr ⟨hne, by simp⟩)
  rw [commonNewData]
  simp only [if_pos hcond]
  simp [blend_self]

lemma commonNewData_blend (alpha : ℝ) (f : ℝ) (buffer avg : List ℝ)
    (hlen : avg.length = buffer.length) :
    commonNewData alpha (some f) buffer ⟨some avg, some f⟩ =
      ⟨some (blend alpha avg buffer), some f⟩ := by
  have hcond : ¬ ((some avg : Option (List ℝ)) = none
      ∨ ((some avg : Option (List ℝ)).getD []).length ≠ buffer.length
      ∨ (jsStrictNe (some f) (some f) ∧ (some f : Option ℝ) ≠ none)) := by
    simp [jsStrictNe, hlen]
  rw [commonNewData]
  simp only [if_neg hcond]
  rfl

lemma blend_replicate (alpha v : ℝ) :
    ∀ l : List ℝ, blend alpha l (List.replicate l.length v) =
      l.map (fun a => a * (1 - alpha) + v * alpha) := by
  intro l
  induction l with
  | nil => rfl
  | cons a t ih =>
      simp only [List.length_cons, List.replicate_succ, blend, List.zipWith_cons_cons,
        List.map_cons] at *
      rw [ih]

/-- Closed form for n repeated ingests of a constant frame with unchanged
center frequency and unchanged length: every bin follows the first-order IIR
recurrence exactly. -/
lemma ingestN_closed_form (alpha f v : ℝ) (len : ℕ) (avg0 : List ℝ)
    (hlen : avg0.length = len) (n : ℕ) :
    ingestN alpha (some f) (List.replicate len v) ⟨some avg0, some f⟩ n =
      ⟨some (avg0.map (fun a => v + (a - v) * (1 - alpha) ^ n)), some f⟩ := by
  induction n with
  | zero =>
      have hfun : (fun a : ℝ => v + (a - v) * (1 - alpha) ^ 0) = fun a => a := by
        funext a
        ring
      rw [ingestN, hfun, List.map_id']
  | succ n ih =>
      rw [ingestN, ih]
      rw [commonNewData_blend alpha f _ _ (by simp [hlen])]
      have hlen2 : (avg0.map (fun a => v + (a - v) * (1 - alpha) ^ n)).length = len := by
        simp [hlen]
      rw [← hlen2, blend_replicate, List.map_map]
      have hfun : ((fun a => a * (1 - alpha) + v * alpha) ∘
          (fun a => v + (a - v) * (1 - alpha) ^ n)) =
          fun a : ℝ => v + (a - v) * (1 - alpha) ^ (n + 1) := by
        funext a
        simp only [Function.comp]
        ring
      rw [hfun]

/-! ### Waterfall renderer, GL backend (widget.js lines 1106-1405)

The ring buffer is the pair of GL textures: bufferTexture with historyCount
rows of fftSize magnitude texels, and historyFreqTexture with one captured
center frequency per row (float-texture layout, lines 1227-1257).  slicePtr
is the write cursor.  lastWrittenSlot records which row the most recent
texSubImage2D write went to (observable instrumentation of the trace). -/

structure WaterfallGLState where
  fftSize : ℕ
  rows : ℕ → List ℝ
  freqs : ℕ → ℝ
  slicePtr : ℕ
  lastWrittenSlot : Option ℕ

/-- configureTexture (widget.js lines 1225-1257, float-texture path): all
magnitude rows become fftSize texels of -100 and every per-row frequency
becomes -1000000.  The write cursor is not touched. -/
def glReconfigure (st : WaterfallGLState) (newSize : ℕ) : WaterfallGLState :=
  { st with fftSize := newSize,
            rows := fun _ => List.replicate newSize (-100),
            freqs := fun _ => -1000000 }

/-- The texSubImage2D writes of newData (widget.js lines 1328-1390): store
the frame magnitudes and its center frequency in row slicePtr, then
slicePtr = mod(slicePtr + 1, historyCount).  The helper mod coincides with
Nat.mod on the natural-number values that occur here (see jsMod_mem_Ico). -/
def glWrite (historyCount : ℕ) (st : WaterfallGLState) (freq : ℝ) (buffer : List ℝ) :
    WaterfallGLState :=
  { st with rows := Function.update st.rows st.slicePtr buffer,
            freqs := Function.update st.freqs st.slicePtr freq,
            slicePtr := (st.slicePtr + 1) % historyCount,
            lastWrittenSlot := some st.slicePtr }

/-- WaterfallPlot buildGL newData (widget.js lines 1306-1391): a zero-length
frame returns immediately; a changed bin count reconfigures the textures
first; then the frame is written at the cursor and the cursor advances. -/
def glNewData (historyCount : ℕ) (st : WaterfallGLState) (freq : ℝ) (buffer : List ℝ) :
    WaterfallGLState :=
  if buffer.length = 0 then st
  else glWrite historyCount
    (if buffer.length ≠ st.fftSize then glReconfigure st buffer.length else st) freq buffer

/-- The state after ingesting frames 0, 1, ..., n-1 in order. -/
def glIngestN (historyCount : ℕ) (frames : ℕ → ℝ × List ℝ) (st0 : WaterfallGLState) :
    ℕ → WaterfallGLState
  | 0 => st0
  | n + 1 => glNewData historyCount (glIngestN historyCount frames st0 n)
      (frames n).1 (frames n).2

lemma mod_ne_mod_of_lt {hc j n : ℕ} (hjn : j < n) (hsub : n - j < hc) :
    j % hc ≠ n % hc := by
  intro h
  have hdvd : hc ∣ n - j := (Nat.modEq_iff_dvd' hjn.le).mp h
  have hpos : 0 < n - j := by omega
  have := Nat.le_of_dvd hpos hdvd
  omega

/-- Run invariant for the GL ring buffer under non-empty frames of constant
bin count: the cursor counts ingests modulo historyCount, the last write went
to the previous cursor value, and each of the last historyCount frames sits,
with its captured center frequency, in the slot given by its index modulo
historyCount. -/
lemma glIngestN_spec (hc : ℕ) (frames : ℕ → ℝ × List ℝ) (st0 : WaterfallGLState)
    (hfft : st0.fftSize ≠ 0) (hlen : ∀ j, (frames j).2.length = st0.fftSize)
    (hptr : st0.slicePtr = 0) (n : ℕ) :
    (glIngestN hc frames st0 n).fftSize = st0.fftSize ∧
    (glIngestN hc frames st0 n).slicePtr = n % hc ∧
    (0 < n → (glIngestN hc frames st0 n).lastWrittenSlot = some ((n - 1) % hc)) ∧
    (∀ j, j < n → n ≤ j + hc →
      (glIngestN hc frames st0 n).freqs (j % hc) = (frames j).1 ∧
      (glIngestN hc frames st0 n).rows (j % hc) = (frames j).2) := by
  induction n with
  | zero =>
      refine ⟨rfl, by show st0.slicePtr = 0 % hc; rw [hptr, Nat.zero_mod], by omega, ?_⟩
      intro j hj
      omega
  | succ n ih =>
      obtain ⟨ihf, ihp, ihl, ihj⟩ := ih
      have hstep : glIngestN hc frames st0 (n + 1) =
          glWrite hc (glIngestN hc frames st0 n) (frames n).1 (frames n).2 := by
        rw [glIngestN, glNewData, if_neg (by rw [hlen n]; exact hfft),
          if_neg (by simp [hlen n, ihf])]
      rw [hstep]
      refine ⟨ihf, ?_, ?_, ?_⟩
      · show ((glIngestN hc frames st0 n).slicePtr + 1) % hc = (n + 1) % hc
        rw [ihp, Nat.mod_add_mod]
      · intro _
        show some (glIngestN hc frames st0 n).slicePtr = some ((n + 1 - 1) % hc)
        rw [ihp]
        simp
      · intro j hj hjhc
        rcases Nat.lt_succ_iff_lt_or_eq.mp hj with hjlt | hjeq
        · have hne : j % hc ≠ (glIngestN hc frames st0 n).slicePtr := by
            rw [ihp]
            exact mod_ne_mod_of_lt hjlt (by omega)
          constructor
          · show Function.update (glIngestN hc frames st0 n).freqs _ _ (j % hc) = _
            rw [Function.update_noteq hne]
            exact (ihj j hjlt (by omega)).1
          · show Function.update (glIngestN hc frames st0 n).rows _ _ (j % hc) = _
            rw [Function.update_noteq hne]
            exact (ihj j hjlt (by omega)).2
        · subst hjeq
          have hsame : j % hc = (glIngestN hc frames st0 j).slicePtr := ihp.symm
          constructor
          · show Function.update (glIngestN hc frames st0 j).freqs _ _ (j % hc) = _
            rw [hsame, Function.update_same]
          · show Function.update (glIngestN hc frames st0 j).rows _ _ (j % hc) = _
            rw [hsame, Function.update_same]

/-! ### Waterfall renderer, 2D backend (widget.js lines 1408-1502)

The 2D history is the array slices of (ImageData row, capturedCenterFreq)
pairs plus the cursor slicePtr.  The pixel colorization of a row (lines
1458-1468) is abstracted to the raw magnitude list: only slot occupancy and
each slot's stored center frequency matter for the verified claims. -/

structure Waterfall2DState where
  canvasWidth : ℕ
  cleared : Bool
  slices : List (List ℝ × ℝ)
  slicePtr : ℕ

/-- The state mutation performed by WaterfallPlot build2D performDraw when a
frame is pending (widget.js lines 1427-1456): a bin-count mismatch reassigns
canvas.width and wipes the history (lines 1433-1440) before the zero-width
early return (lines 1443-1445); otherwise the frame is pushed while the
buffer is filling, or overwrites the slot at the cursor once it is full. -/
def waterfall2DNewData (historyCount : ℕ) (st : Waterfall2DState) (freq : ℝ)
    (buffer : List ℝ) : Waterfall2DState :=
  let st1 := if buffer.length ≠ st.canvasWidth then
      ⟨buffer.length, true, [], 0⟩ else st
  if buffer.length = 0 then st1
  else if st1.slices.length < historyCount then
    { st1 with slices := st1.slices ++ [(buffer, freq)] }
  else
    { st1 with slices := st1.slices.set st1.slicePtr (buffer, freq),
               slicePtr := (st1.slicePtr + 1) % historyCount }

/-- The 2D state after ingesting frames 0, 1, ..., n-1 in order. -/
def w2dIngestN (historyCount : ℕ) (frames : ℕ → ℝ × List ℝ) (st0 : Waterfall2DState) :
    ℕ → Waterfall2DState
  | 0 => st0
  | n + 1 => waterfall2DNewData historyCount (w2dIngestN historyCount frames st0 n)
      (frames n).1 (frames n).2

/-- 2D fill phase (widget.js lines 1449-1450): while slices.length <
historyCount, a matching-width non-empty frame is pushed onto the end of the
array and slicePtr is not touched. -/
lemma w2d_fill_step (hc : ℕ) (st : Waterfall2DState) (freq : ℝ) (buffer : List ℝ)
    (hb : buffer.length ≠ 0) (hwidth : buffer.length = st.canvasWidth)
    (hfill : st.slices.length < hc) :
    waterfall2DNewData hc st freq buffer =
      { st with slices := st.slices ++ [(buffer, freq)] } := by
  have h1 : ¬ (buffer.length ≠ st.canvasWidth) := by simp [hwidth]
  simp only [waterfall2DNewData, if_neg h1, if_neg hb, if_pos hfill]

/-- 2D full phase (widget.js lines 1452-1455): once the buffer is full, a
matching-width non-empty frame overwrites the slot at slicePtr and the
cursor advances by one modulo historyCount. -/
lemma w2d_full_step (hc : ℕ) (st : Waterfall2DState) (freq : ℝ) (buffer : List ℝ)
    (hb : buffer.length ≠ 0) (hwidth : buffer.length = st.canvasWidth)
    (hfull : ¬ st.slices.length < hc) :
    waterfall2DNewData hc st freq buffer =
      { st with slices := st.slices.set st.slicePtr (buffer, freq),
                slicePtr := (st.slicePtr + 1) % hc } := by
  have h1 : ¬ (buffer.length ≠ st.canvasWidth) := by simp [hwidth]
  simp only [waterfall2DNewData, if_neg h1, if_neg hb, if_neg hfull]

/-- Run invariant for the 2D history array under non-empty frames of
constant bin count, from an empty history: while filling, frames are
appended at their own index with the cursor fixed at 0; once full, each of
the last historyCount frames sits in the slot given by its index modulo
historyCount and the cursor counts overwrites modulo historyCount. -/
lemma w2dIngestN_spec (hc : ℕ) (hhc : 0 < hc) (w : ℕ) (hw : w ≠ 0) (c : Bool)
    (frames : ℕ → ℝ × List ℝ) (hlen : ∀ j, (frames j).2.length = w) (n : ℕ) :
    (w2dIngestN hc frames ⟨w, c, [], 0⟩ n).canvasWidth = w ∧
    (w2dIngestN hc frames ⟨w, c, [], 0⟩ n).slices.length = min n hc ∧
    (w2dIngestN hc frames ⟨w, c, [], 0⟩ n).slicePtr = (n - hc) % hc ∧
    (∀ j, j < n → n ≤ j + hc →
      (w2dIngestN hc frames ⟨w, c, [], 0⟩ n).slices[(j % hc)]? =
        some ((frames j).2, (frames j).1)) := by
  induction n with
  | zero =>
      refine ⟨rfl, by simp [w2dIngestN], by simp [w2dIngestN], ?_⟩
      intro j hj
      exact absurd hj (Nat.not_lt_zero j)
  | succ n ih =>
      obtain ⟨ihw, ihl, ihp, ihj⟩ := ih
      have hstep : w2dIngestN hc frames ⟨w, c, [], 0⟩ (n + 1) =
          waterfall2DNewData hc (w2dIngestN hc frames ⟨w, c, [], 0⟩ n)
            (frames n).1 (frames n).2 := rfl
      have hbne : (frames n).2.length ≠ 0 := by rw [hlen n]; exact hw
      have hbw : (frames n).2.length = (w2dIngestN hc frames ⟨w, c, [], 0⟩ n).canvasWidth := by
        rw [hlen n, ihw]
      by_cases hfill : n < hc
      · have hlt : (w2dIngestN hc frames ⟨w, c, [], 0⟩ n).slices.length < hc := by
          rw [ihl]
          omega
        rw [hstep, w2d_fill_step hc _ _ _ hbne hbw hlt]
        refine ⟨ihw, ?_, ?_, ?_⟩
        · show ((w2dIngestN hc frames ⟨w, c, [], 0⟩ n).slices ++ [_]).length = min (n + 1) hc
          rw [List.length_append, ihl]
          simp
          omega
        · show (w2dIngestN hc frames ⟨w, c, [], 0⟩ n).slicePtr = (n + 1 - hc) % hc
          rw [ihp]
          have e1 : n - hc = 0 := by omega
          have e2 : n + 1 - hc = 0 := by omega
          rw [e1, e2]
        · intro j hj hjhc
          have hjhc2 : j < hc := by omega
          have hmod : j % hc = j := Nat.mod_eq_of_lt hjhc2
          rcases Nat.lt_succ_iff_lt_or_eq.mp hj with hjlt | hjeq
          · have hlenj : j < (w2dIngestN hc frames ⟨w, c, [], 0⟩ n).slices.length := by
              rw [ihl]
              omega
            have hprev := ihj j hjlt (by omega)
            rw [hmod] at hprev
            show ((w2dIngestN hc frames ⟨w, c, [], 0⟩ n).slices ++ [_])[(j % hc)]? = _
            rw [hmod, List.getElem?_append_left hlenj]
            exact hprev
          · have hlenn : (w2dIngestN hc frames ⟨w, c, [], 0⟩ n).slices.length = n := by
              rw [ihl]
              omega
            have hgen : ∀ (l : List (List ℝ × ℝ)) (a : List ℝ × ℝ), l.length = n →
                (l ++ [a])[n]? = some a := by
              intro l a hl
              rw [← hl]
              exact List.getElem?_concat_length l a
            subst hjeq
            show ((w2dIngestN hc frames ⟨w, c, [], 0⟩ j).slices ++
              [((frames j).2, (frames j).1)])[(j % hc)]? = _
            rw [hmod]
            exact hgen _ _ hlenn
      · have hge : hc ≤ n := le_of_not_lt hfill
        have hlenhc : (w2dIngestN hc frames ⟨w, c, [], 0⟩ n).slices.length = hc := by
          rw [ihl]
          omega
        have hnotlt : ¬ (w2dIngestN hc frames ⟨w, c, [], 0⟩ n).slices.length < hc := by
          omega
        have hptr_eq : (n - hc) % hc = n % hc := by
          conv_rhs => rw [← Nat.sub_add_cancel hge]
          rw [Nat.add_mod_right]
        rw [hstep, w2d_full_step hc _ _ _ hbne hbw hnotlt]
        refine ⟨ihw, ?_, ?_, ?_⟩
        · show ((w2dIngestN hc frames ⟨w, c, [], 0⟩ n).slices.set _ _).length = min (n + 1) hc
          rw [List.length_set, hlenhc]
          omega
        · show ((w2dIngestN hc frames ⟨w, c, [], 0⟩ n).slicePtr + 1) % hc = (n + 1 - hc) % hc
          rw [ihp, Nat.mod_add_mod]
          have e1 : n + 1 - hc = n - hc + 1 := by omega
          rw [e1]
        · intro j hj hjhc
          rcases Nat.lt_succ_iff_lt_or_eq.mp hj with hjlt | hjeq
          · have hne : (w2dIngestN hc frames ⟨w, c, [], 0⟩ n).slicePtr ≠ j % hc := by
              rw [ihp, hptr_eq]
              exact fun h => mod_ne_mod_of_lt hjlt (by omega) h.symm
            show ((w2dIngestN hc frames ⟨w, c, [], 0⟩ n).slices.set _ _)[(j % hc)]? = _
            rw [List.getElem?_set_ne hne]
            exact ihj j hjlt (by omega)
          · subst hjeq
            have hpeq : (w2dIngestN hc frames ⟨w, c, [], 0⟩ j).slicePtr = j % hc := by
              rw [ihp, hptr_eq]
            have hplt : (w2dIngestN hc frames ⟨w, c, [], 0⟩ j).slicePtr <
                (w2dIngestN hc frames ⟨w, c, [], 0⟩ j).slices.length := by
              rw [hpeq, hlenhc]
              exact Nat.mod_lt j hhc
            show ((w2dIngestN hc frames ⟨w, c, [], 0⟩ j).slices.set _ _)[(j % hc)]? = _
            rw [← hpeq, List.getElem?_set_eq hplt]

/-! ### Drift compensation offsets (widget.js lines 1471-1496 and 1139-1148) -/

/-- Math.round: round half toward positive infinity. -/
noncomputable def jsRound (x : ℝ) : ℤ := ⌊x + 1 / 2⌋

/-- The horizontal pixel position at which the 2D path paints a history row
(widget.js lines 1471-1493): offsetScale = w / bandwidth and the row goes to
Math.round((sliceFreq - viewCenterFreq) * offsetScale). -/
noncomputable def slicePaintX (sliceFreq viewCenterFreq w bandwidth : ℝ) : ℤ :=
  jsRound ((sliceFreq - viewCenterFreq) * (w / bandwidth))

/-- The GL fragment shader data lookup (widget.js lines 1139-1140, with
freqScale = 1.0 / bandwidth from line 1399): the fragment at data-texture
x-coordinate texLookupX reads the row at
texLookupX + (currentFreq - historyFreq) * freqScale. -/
noncomputable def shaderShiftX (texLookupX currentFreq historyFreq bandwidth : ℝ) : ℝ :=
  texLookupX + (currentFreq - historyFreq) * (1 / bandwidth)

/-! ### Color gradient: interpolateColor (widget.js lines 1048-1070)

interpolateColor can receive any JS number, so here the full value space is
modelled: NaN, the two infinities, and finite values. -/

inductive JSNum where
  | nan : JSNum
  | posInf : JSNum
  | negInf : JSNum
  | fin : ℝ → JSNum

/-- JS addition. -/
def jsAdd : JSNum → JSNum → JSNum
  | .nan, _ => .nan
  | _, .nan => .nan
  | .posInf, .negInf => .nan
  | .negInf, .posInf => .nan
  | .posInf, _ => .posInf
  | _, .posInf => .posInf
  | .negInf, _ => .negInf
  | _, .negInf => .negInf
  | .fin x, .fin y => .fin (x + y)

/-- JS negation. -/
def jsNeg : JSNum → JSNum
  | .nan => .nan
  | .posInf => .negInf
  | .negInf => .posInf
  | .fin x => .fin (-x)

/-- JS subtraction. -/
def jsSub (a b : JSNum) : JSNum := jsAdd a (jsNeg b)

/-- JS multiplication: an infinity times zero is NaN. -/
noncomputable def jsMul : JSNum → JSNum → JSNum
  | .nan, _ => .nan
  | _, .nan => .nan
  | .posInf, .posInf => .posInf
  | .posInf, .negInf => .negInf
  | .negInf, .posInf => .negInf
  | .negInf, .negInf => .posInf
  | .posInf, .fin y => if 0 < y then .posInf else if y < 0 then .negInf else .nan
  | .fin x, .posInf => if 0 < x then .posInf else if x < 0 then .negInf else .nan
  | .negInf, .fin y => if 0 < y then .negInf else if y < 0 then .posInf else .nan
  | .fin x, .negInf => if 0 < x then .negInf else if x < 0 then .posInf else .nan
  | .fin x, .fin y => .fin (x * y)

/-- Math.floor: NaN and the infinities pass through. -/
noncomputable def jsFloor : JSNum → JSNum
  | .nan => .nan
  | .posInf => .posInf
  | .negInf => .negInf
  | .fin x => .fin ((⌊x⌋ : ℤ) : ℝ)

/-- Math.min: NaN if either argument is NaN. -/
noncomputable def jsMin : JSNum → JSNum → JSNum
  | .nan, _ => .nan
  | _, .nan => .nan
  | .negInf, _ => .negInf
  | _, .negInf => .negInf
  | .posInf, b => b
  | a, .posInf => a
  | .fin x, .fin y => .fin (min x y)

/-- Math.max: NaN if either argument is NaN. -/
noncomputable def jsMax : JSNum → JSNum → JSNum
  | .nan, _ => .nan
  | _, .nan => .nan
  | .posInf, _ => .posInf
  | _, .posInf => .posInf
  | .negInf, b => b
  | a, .negInf => a
  | .fin x, .fin y => .fin (max x y)

/-- The gradient control points (widget.js lines 1049-1055). -/
def colors : List (ℝ × ℝ × ℝ) :=
  [(0, 0, 0), (0, 0, 255), (0, 200, 255), (255, 255, 0), (255, 0, 0)]

/-- colorCountForScale = colors.length - 1 (widget.js line 1056). -/
def colorCountForScale : ℕ := colors.length - 1

/-- colorCountForIndex = colors.length - 2 (widget.js line 1057). -/
def colorCountForIndex : ℕ := colors.length - 2

/-- A JS array subscript of colors: an element when the subscript is a
nonnegative in-range integer; undefined (none) otherwise — in particular
for subscript NaN. -/
noncomputable def jsIndexColors : JSNum → Option (ℝ × ℝ × ℝ)
  | .fin x => if 0 ≤ x ∧ x = ((⌊x⌋ : ℤ) : ℝ) then colors[(⌊x⌋).toNat]? else none
  | _ => none

/-- The clamped color-table index of interpolateColor (widget.js line 1061):
Math.max(0, Math.min(colorCountForIndex, Math.floor(value * colorCountForScale))). -/
noncomputable def colorIndexOf (value : JSNum) : JSNum :=
  jsMax (.fin 0) (jsMin (.fin (colorCountForIndex : ℝ))
    (jsFloor (jsMul value (.fin (colorCountForScale : ℝ)))))

/-- interpolateColor (widget.js lines 1059-1070): the four values written to
outArray, as (r, g, b, alpha).  Result none models the TypeError thrown when
colors[colorIndex] is undefined and its components are read (lines 1064-1068),
in which case nothing is written. -/
noncomputable def interpolateColor (value : JSNum) : Option (JSNum × JSNum × JSNum × ℝ) :=
  let scaled := jsMul value (.fin (colorCountForScale : ℝ))
  let colorIndex := colorIndexOf value
  match jsIndexColors colorIndex, jsIndexColors (jsAdd colorIndex (.fin 1)) with
  | some color0, some color1 =>
      let colorInterp1 := jsSub scaled colorIndex
      let colorInterp0 := jsSub (.fin 1) colorInterp1
      some (jsAdd (jsMul (.fin color0.1) colorInterp0) (jsMul (.fin color1.1) colorInterp1),
            jsAdd (jsMul (.fin color0.2.1) colorInterp0) (jsMul (.fin color1.2.1) colorInterp1),
            jsAdd (jsMul (.fin color0.2.2) colorInterp0) (jsMul (.fin color1.2.2) colorInterp1),
            255)
  | _, _ => none

/-! ## Claims -/

/-- C2: after any call to changeZoom, for every delta, the stored zoom factor
satisfies 1 <= zoom <= max(1, bandwidth/100000, totalBins/60), where totalBins
is the current spectrum FFT length. -/
theorem changeZoom_zoom_clamped (quant : ℝ → ℝ) (e : ViewEnv) (s : ViewState)
    (delta cursorX : ℝ) :
    1 ≤ (changeZoom quant e s delta cursorX).zoom ∧
    (changeZoom quant e s delta cursorX).zoom ≤
      max 1 (max (e.bandwidth / 100000) ((e.totalBins : ℝ) / 60)) := by
  have hzoom : (changeZoom quant e s delta cursorX).zoom = newZoom e s delta := rfl
  have hmz : maxZoom e = max 1 (max (e.bandwidth / 100000) ((e.totalBins : ℝ) / 60)) := by
    rw [maxZoom]
    norm_num [MAX_ZOOM_BINS]
  rw [hzoom, newZoom]
  constructor
  · exact le_min (hmz ▸ le_max_left _ _) (le_max_left _ _)
  · exact le_trans (min_le_left _ _) (le_of_eq hmz)

/-- C9: for every real v and every modulus m > 0, the helper mod(v, m)
returns the nonnegative residue in [0, m) even for negative v, so every
ring-buffer slot index computed with mod(slicePtr + 1, historyCount) or
mod(i + slicePtr, sliceCount) is in bounds. -/
theorem mod_in_range (v m : ℝ) (hm : 0 < m) :
    (0 ≤ jsMod v m ∧ jsMod v m < m) ∧
    (∀ slicePtr historyCount : ℕ, 0 < historyCount →
      0 ≤ jsMod ((slicePtr : ℝ) + 1) (historyCount : ℝ) ∧
      jsMod ((slicePtr : ℝ) + 1) (historyCount : ℝ) < (historyCount : ℝ)) ∧
    (∀ i slicePtr sliceCount : ℕ, 0 < sliceCount →
      0 ≤ jsMod ((i : ℝ) + (slicePtr : ℝ)) (sliceCount : ℝ) ∧
      jsMod ((i : ℝ) + (slicePtr : ℝ)) (sliceCount : ℝ) < (sliceCount : ℝ)) := by
  refine ⟨jsMod_mem_Ico hm, ?_, ?_⟩
  · intro p h hh
    exact jsMod_mem_Ico (by exact_mod_cast hh)
  · intro i p c hc
    exact jsMod_mem_Ico (by exact_mod_cast hc)

theorem mod_in_range_witness :
    0 < (2 : ℝ) ∧
    ((0 ≤ jsMod (-3) 2 ∧ jsMod (-3) 2 < 2) ∧
      (∀ slicePtr historyCount : ℕ, 0 < historyCount →
        0 ≤ jsMod ((slicePtr : ℝ) + 1) (historyCount : ℝ) ∧
        jsMod ((slicePtr : ℝ) + 1) (historyCount : ℝ) < (historyCount : ℝ)) ∧
      (∀ i slicePtr sliceCount : ℕ, 0 < sliceCount →
        0 ≤ jsMod ((i : ℝ) + (slicePtr : ℝ)) (sliceCount : ℝ) ∧
        jsMod ((i : ℝ) + (slicePtr : ℝ)) (sliceCount : ℝ) < (sliceCount : ℝ))) :=
  ⟨by norm_num, mod_in_range (-3) 2 (by norm_num)⟩

/-- C6 counterexample: a history row captured at 101 Hz, displayed at view
center 100 Hz, with a 2-texel row spanning 5 Hz of bandwidth, is painted by
the 2D path at pixel 0, not at the claimed exact offset 0.4. -/
theorem drift_offset_exact_cex :
    ((slicePaintX 101 100 2 5 : ℤ) : ℝ) ≠ (101 - 100) * (2 / 5) := by
  have h1 : slicePaintX 101 100 2 5 = 0 := by
    rw [slicePaintX, jsRound]
    norm_num
  rw [h1]
  norm_num

/-- C6 (amended): the 2D path paints a history row captured at f1, viewed at
center f2, at the claimed offset (f1 - f2) * pixelsPerHertz rounded to the
nearest whole pixel (half up), hence within half a pixel of the claimed
offset; the GPU fragment shader shifts the row by the claimed offset exactly
(the row texel at t is displayed at x-coordinate t + (f1 - f2) / bandwidth,
i.e. offset (f1 - f2) * pixelsPerHertz after scaling by the row width). -/
theorem drift_offset_rounded (f1 f2 w B : ℝ) :
    slicePaintX f1 f2 w B = jsRound ((f1 - f2) * (w / B)) ∧
    |((slicePaintX f1 f2 w B : ℤ) : ℝ) - (f1 - f2) * (w / B)| ≤ 1 / 2 ∧
    ∀ t : ℝ, shaderShiftX (t + (f1 - f2) * (1 / B)) f2 f1 B = t := by
  refine ⟨rfl, ?_, ?_⟩
  · rw [slicePaintX, jsRound]
    have h1 : ((⌊(f1 - f2) * (w / B) + 1 / 2⌋ : ℤ) : ℝ) ≤ (f1 - f2) * (w / B) + 1 / 2 :=
      Int.floor_le _
    have h2 : (f1 - f2) * (w / B) + 1 / 2 - 1 < ((⌊(f1 - f2) * (w / B) + 1 / 2⌋ : ℤ) : ℝ) :=
      Int.sub_one_lt_floor _
    rw [abs_le]
    constructor <;> linarith
  · intro t
    rw [shaderShiftX]
    ring

/-- C7: a zero-length frame is not a no-op on the 2D ingest paths.  The
SpectrumPlot 2D path calls commonNewData unguarded, which replaces a
non-empty average buffer by an empty one; the WaterfallPlot 2D path wipes
the entire slice history and resets the cursor before its zero-width early
return.  The GL paths, by contrast, return immediately as the spec says. -/
theorem zero_length_ingest_behavior :
    (commonNewData (1/2) (some 100) [] ⟨some [5], some 100⟩ =
      ⟨some [], some 100⟩) ∧
    ((⟨some [], some 100⟩ : AvgState) ≠ ⟨some [5], some 100⟩) ∧
    (waterfall2DNewData 1024 ⟨1, false, [([5], 100)], 0⟩ 100 [] =
      ⟨0, true, [], 0⟩) ∧
    ((⟨0, true, [], 0⟩ : Waterfall2DState) ≠ ⟨1, false, [([5], 100)], 0⟩) ∧
    (∀ (hc : ℕ) (st : WaterfallGLState) (freq : ℝ), glNewData hc st freq [] = st) := by
  refine ⟨?_, ?_, ?_, ?_, ?_⟩
  · have hcond : (some [5] : Option (List ℝ)) = none
        ∨ ((some [5] : Option (List ℝ)).getD []).length ≠ ([] : List ℝ).length
        ∨ (jsStrictNe (some 100) (some 100) ∧ (some 100 : Option ℝ) ≠ none) := by
      right
      left
      simp
    rw [commonNewData]
    simp only [if_pos hcond]
    rfl
  · intro h
    have := congrArg AvgState.averageBuffer h
    simp at this
  · rfl
  · intro h
    have := congrArg Waterfall2DState.canvasWidth h
    simp at this
  · intro hc st freq
    simp [glNewData]

/-- C8 counterexample: immediately after construction from persisted
storage values zoom = 1 and scroll = 0.5 with viewport width 1, the virtual
scroll is 0.5 while totalPixelWidth - visiblePixelWidth = 1 * 1 - 1 = 0, so
the invariant 0 <= scrollPixels + fractionalScroll <= totalPixelWidth -
visiblePixelWidth fails at construction (the initializer does not clamp;
see the TODO at widget.js line 235). -/
theorem init_scroll_invariant_cex :
    ¬ (0 ≤ virtualScroll (initViewState 1 1 (1/2)) ∧
       virtualScroll (initViewState 1 1 (1/2)) ≤ 1 * 1 - 1) := by
  have hmod : jsMod (1/2 : ℝ) 1 = 1/2 := by
    have ht1 : jsTrunc ((1/2 : ℝ) / 1) = 0 := by
      rw [jsTrunc, if_pos (by norm_num)]
      norm_num
    have hr1 : jsRem (1/2 : ℝ) 1 = 1/2 := by
      rw [jsRem, ht1]
      norm_num
    have ht2 : jsTrunc ((1/2 + 1 : ℝ) / 1) = 1 := by
      rw [jsTrunc, if_pos (by norm_num)]
      norm_num
    rw [jsMod, hr1, jsRem, ht2]
    norm_num
  have hvs : virtualScroll (initViewState 1 1 (1/2)) = 1/2 := by
    rw [virtualScroll, initViewState]
    simp only [hmod]
    norm_num
  rw [hvs]
  norm_num

/-- C8 (amended): after every changeZoom call the virtual scroll satisfies
0 <= scrollPixels + fractionalScroll <= totalPixelWidth - visiblePixelWidth
(with totalPixelWidth = pixelWidth * zoom); at construction from persisted
values the invariant can fail, because the fractional part of the persisted
scroll is retained even when it exceeds the scrollable range. -/
theorem changeZoom_scroll_invariant (quant : ℝ → ℝ) (e : ViewEnv) (s : ViewState)
    (delta cursorX : ℝ) (hW : 0 ≤ e.pixelWidth) :
    0 ≤ virtualScroll (changeZoom quant e s delta cursorX) ∧
    virtualScroll (changeZoom quant e s delta cursorX) ≤
      e.pixelWidth * (changeZoom quant e s delta cursorX).zoom - e.pixelWidth := by
  have hv : virtualScroll (changeZoom quant e s delta cursorX) =
      scrollAdjusted e s delta cursorX := by
    show quant (scrollAdjusted e s delta cursorX) +
        (scrollAdjusted e s delta cursorX - quant (scrollAdjusted e s delta cursorX)) =
        scrollAdjusted e s delta cursorX
    ring
  have hz : (changeZoom quant e s delta cursorX).zoom = newZoom e s delta := rfl
  have hz1 : 1 ≤ newZoom e s delta := by
    rw [newZoom, maxZoom]
    exact le_min (le_max_left _ _) (le_max_left _ _)
  have hWz : e.pixelWidth ≤ e.pixelWidth * newZoom e s delta := by nlinarith
  rw [hv, hz, scrollAdjusted]
  refine ⟨le_max_left _ _, max_le (by linarith) (min_le_left _ _)⟩

theorem changeZoom_scroll_invariant_witness :
    0 ≤ (ViewEnv.mk 100000 0 1 60).pixelWidth ∧
    (0 ≤ virtualScroll (changeZoom id (ViewEnv.mk 100000 0 1 60) (ViewState.mk 1 0 0) 0 0) ∧
     virtualScroll (changeZoom id (ViewEnv.mk 100000 0 1 60) (ViewState.mk 1 0 0) 0 0) ≤
       (ViewEnv.mk 100000 0 1 60).pixelWidth *
         (changeZoom id (ViewEnv.mk 100000 0 1 60) (ViewState.mk 1 0 0) 0 0).zoom -
         (ViewEnv.mk 100000 0 1 60).pixelWidth) :=
  ⟨by norm_num, changeZoom_scroll_invariant id (ViewEnv.mk 100000 0 1 60)
    (ViewState.mk 1 0 0) 0 0 (by norm_num)⟩

/-- C3: if the averaging ingest receives a frame whose (non-NaN) center
frequency differs from the last-seen center frequency, then immediately
after that ingest the average buffer equals the incoming magnitudes exactly,
bin for bin, with no blended contribution from the previous buffer. -/
theorem commonNewData_reset_no_blending (alpha fNew : ℝ) (buffer : List ℝ)
    (st : AvgState) (hne : jsStrictNe st.lastDrawnCenterFreq (some fNew)) :
    (commonNewData alpha (some fNew) buffer st).averageBuffer = some buffer ∧
    ∀ i : ℕ, (((commonNewData alpha (some fNew) buffer st).averageBuffer).getD []).getD i 0 =
      buffer.getD i 0 := by
  rw [commonNewData_reset alpha fNew buffer st hne]
  exact ⟨rfl, fun i => rfl⟩

theorem commonNewData_reset_no_blending_witness :
    jsStrictNe (AvgState.mk (some [1]) (some 0)).lastDrawnCenterFreq (some 1) ∧
    ((commonNewData (1/2) (some 1) [2] (AvgState.mk (some [1]) (some 0))).averageBuffer =
        some [2] ∧
      ∀ i : ℕ,
        (((commonNewData (1/2) (some 1) [2] (AvgState.mk (some [1]) (some 0))).averageBuffer).getD
            []).getD i 0 = ([2] : List ℝ).getD i 0) :=
  ⟨by simp [jsStrictNe],
   commonNewData_reset_no_blending (1/2) 1 [2] (AvgState.mk (some [1]) (some 0))
     (by simp [jsStrictNe])⟩

/-- The bin i trace of repeated ingests of the frame (f, replicate len v)
starting from average buffer avg0 with last-seen center frequency f. -/
noncomputable def avgBinSeq (alpha f v : ℝ) (len : ℕ) (avg0 : List ℝ) (i n : ℕ) : ℝ :=
  (((ingestN alpha (some f) (List.replicate len v) ⟨some avg0, some f⟩ n).averageBuffer).getD
    []).getD i 0

/-- C4: ingesting a constant frame of value v, with unchanged center
frequency and unchanged length, n times with smoothing coefficient alpha in
(0, 1], gives |avg_n[i] - v| = |avg_0[i] - v| * (1 - alpha)^n exactly for
every bin, and avg_n[i] converges monotonically toward v. -/
theorem averaging_geometric_decay (alpha f v : ℝ) (len : ℕ) (avg0 : List ℝ) (i : ℕ)
    (h0 : 0 < alpha) (h1 : alpha ≤ 1) (hlen : avg0.length = len) (hi : i < len) :
    (∀ n, |avgBinSeq alpha f v len avg0 i n - v| =
        |avgBinSeq alpha f v len avg0 i 0 - v| * (1 - alpha) ^ n) ∧
    Antitone (fun n => |avgBinSeq alpha f v len avg0 i n - v|) ∧
    Filter.Tendsto (fun n => avgBinSeq alpha f v len avg0 i n) Filter.atTop (nhds v) := by
  have hilen : i < avg0.length := by omega
  have hr0 : (0 : ℝ) ≤ 1 - alpha := by linarith
  have hval : ∀ n, avgBinSeq alpha f v len avg0 i n =
      v + (avg0.getD i 0 - v) * (1 - alpha) ^ n := by
    intro n
    rw [avgBinSeq, ingestN_closed_form alpha f v len avg0 hlen n]
    simp only [Option.getD_some]
    rw [List.getD_eq_getElem?_getD, List.getElem?_map, List.getElem?_eq_getElem hilen,
      Option.map_some', Option.getD_some, List.getD_eq_getElem?_getD,
      List.getElem?_eq_getElem hilen, Option.getD_some]
  have habs : ∀ n, |avgBinSeq alpha f v len avg0 i n - v| =
      |avg0.getD i 0 - v| * (1 - alpha) ^ n := by
    intro n
    rw [hval n]
    have e1 : v + (avg0.getD i 0 - v) * (1 - alpha) ^ n - v =
        (avg0.getD i 0 - v) * (1 - alpha) ^ n := by ring
    rw [e1, abs_mul, abs_pow, abs_of_nonneg hr0]
  refine ⟨?_, ?_, ?_⟩
  · intro n
    rw [habs n, habs 0, pow_zero, mul_one]
  · apply antitone_nat_of_succ_le
    intro n
    rw [habs (n + 1), habs n]
    apply mul_le_mul_of_nonneg_left _ (abs_nonneg _)
    exact pow_le_pow_of_le_one hr0 (by linarith) (Nat.le_succ n)
  · have hr1 : 1 - alpha < 1 := by linarith
    have hpow : Filter.Tendsto (fun n : ℕ => (1 - alpha) ^ n) Filter.atTop (nhds 0) :=
      tendsto_pow_atTop_nhds_zero_of_lt_one hr0 hr1
    have h2 : Filter.Tendsto (fun n : ℕ => v + (avg0.getD i 0 - v) * (1 - alpha) ^ n)
        Filter.atTop (nhds (v + (avg0.getD i 0 - v) * 0)) :=
      Filter.Tendsto.const_add v (Filter.Tendsto.const_mul _ hpow)
    rw [mul_zero, add_zero] at h2
    exact h2.congr fun n => (hval n).symm

theorem averaging_geometric_decay_witness :
    0 < (1/2 : ℝ) ∧ (1/2 : ℝ) ≤ 1 ∧ ([(0 : ℝ)].length = 1) ∧ (0 < 1) ∧
    ((∀ n, |avgBinSeq (1/2) 0 10 1 [0] 0 n - 10| =
        |avgBinSeq (1/2) 0 10 1 [0] 0 0 - 10| * (1 - 1/2) ^ n) ∧
      Antitone (fun n => |avgBinSeq (1/2) 0 10 1 [0] 0 n - 10|) ∧
      Filter.Tendsto (fun n => avgBinSeq (1/2) 0 10 1 [0] 0 n) Filter.atTop (nhds 10)) :=
  ⟨by norm_num, by norm_num, rfl, by norm_num,
   averaging_geometric_decay (1/2) 0 10 1 [0] 0 (by norm_num) (by norm_num) rfl
     (by norm_num)⟩

/-- C5 counterexample: on the 2D backend, while the history is still
filling (widget.js lines 1449-1450), an ingest appends the frame at the end
of the slices array and does not touch slicePtr.  With historyCount = 2 and
one stored slice, ingesting frame ([7], 200) leaves the cursor at 0 instead
of advancing it to (0 + 1) mod 2 = 1, and slot 0 still holds the old slice
([5], 100) instead of the new frame: the claimed per-ingest write-at-cursor
and cursor advance do not happen on this path. -/
theorem waterfall_2d_fill_cex :
    (waterfall2DNewData 2 ⟨1, false, [([5], 100)], 0⟩ 200 [7]).slicePtr = 0 ∧
    (0 : ℕ) ≠ (0 + 1) % 2 ∧
    (waterfall2DNewData 2 ⟨1, false, [([5], 100)], 0⟩ 200 [7]).slices[(0 : ℕ)]? =
      some ([5], 100) ∧
    (([(5 : ℝ)], (100 : ℝ)) : List ℝ × ℝ) ≠ ([7], 200) := by
  refine ⟨rfl, by norm_num, rfl, ?_⟩
  intro h
  have := congrArg Prod.fst h
  simp at this

/-- C5 (amended): on the GL backend every ingest of a non-empty frame writes
the magnitudes and the captured center frequency into the slot at the write
cursor and advances the cursor by exactly one modulo historyCount.  On the
2D backend this holds once the history is full; while it is filling, the
frame is appended at logical position slices.length and the cursor stays
where it was.  On both backends, for non-empty frames of constant bin count,
after historyCount + k ingests (k >= 0) the slot last written is
(historyCount + k - 1) mod historyCount and each slot stores the center
frequency (and magnitudes) of the frame written at that logical position. -/
theorem waterfall_ring_buffer_spec (hc k : ℕ) (frames : ℕ → ℝ × List ℝ)
    (st0 : WaterfallGLState) (c : Bool) (hhc : 0 < hc) (hfft : st0.fftSize ≠ 0)
    (hlen : ∀ j, (frames j).2.length = st0.fftSize) (hptr : st0.slicePtr = 0) :
    (∀ (st : WaterfallGLState) (freq : ℝ) (buffer : List ℝ), buffer.length ≠ 0 →
      (glNewData hc st freq buffer).slicePtr = (st.slicePtr + 1) % hc ∧
      (glNewData hc st freq buffer).rows st.slicePtr = buffer ∧
      (glNewData hc st freq buffer).freqs st.slicePtr = freq ∧
      (glNewData hc st freq buffer).lastWrittenSlot = some st.slicePtr) ∧
    (glIngestN hc frames st0 (hc + k)).lastWrittenSlot = some ((hc + k - 1) % hc) ∧
    (∀ j, k ≤ j → j < hc + k →
      (glIngestN hc frames st0 (hc + k)).freqs (j % hc) = (frames j).1 ∧
      (glIngestN hc frames st0 (hc + k)).rows (j % hc) = (frames j).2) ∧
    (∀ (st : Waterfall2DState) (freq : ℝ) (buffer : List ℝ), buffer.length ≠ 0 →
      buffer.length = st.canvasWidth → st.slices.length < hc →
      (waterfall2DNewData hc st freq buffer).slices = st.slices ++ [(buffer, freq)] ∧
      (waterfall2DNewData hc st freq buffer).slicePtr = st.slicePtr) ∧
    (∀ (st : Waterfall2DState) (freq : ℝ) (buffer : List ℝ), buffer.length ≠ 0 →
      buffer.length = st.canvasWidth → ¬ st.slices.length < hc →
      (waterfall2DNewData hc st freq buffer).slices =
        st.slices.set st.slicePtr (buffer, freq) ∧
      (waterfall2DNewData hc st freq buffer).slicePtr = (st.slicePtr + 1) % hc) ∧
    (w2dIngestN hc frames ⟨st0.fftSize, c, [], 0⟩ (hc + k)).slices[((hc + k - 1) % hc)]? =
      some ((frames (hc + k - 1)).2, (frames (hc + k - 1)).1) ∧
    (∀ j, k ≤ j → j < hc + k →
      (w2dIngestN hc frames ⟨st0.fftSize, c, [], 0⟩ (hc + k)).slices[(j % hc)]? =
        some ((frames j).2, (frames j).1)) := by
  obtain ⟨_, _, hlast, hslots⟩ := glIngestN_spec hc frames st0 hfft hlen hptr (hc + k)
  obtain ⟨_, _, _, hslots2d⟩ :=
    w2dIngestN_spec hc hhc st0.fftSize hfft c frames hlen (hc + k)
  refine ⟨?_, hlast (by omega), ?_, ?_, ?_, ?_, ?_⟩
  · intro st freq buffer hb
    rw [glNewData, if_neg hb]
    by_cases hsz : buffer.length ≠ st.fftSize
    · rw [if_pos hsz]
      exact ⟨rfl, Function.update_same _ _ _, Function.update_same _ _ _, rfl⟩
    · rw [if_neg hsz]
      exact ⟨rfl, Function.update_same _ _ _, Function.update_same _ _ _, rfl⟩
  · intro j hj1 hj2
    exact hslots j hj2 (by omega)
  · intro st freq buffer hb hwidth hfill
    rw [w2d_fill_step hc st freq buffer hb hwidth hfill]
    exact ⟨rfl, rfl⟩
  · intro st freq buffer hb hwidth hfull
    rw [w2d_full_step hc st freq buffer hb hwidth hfull]
    exact ⟨rfl, rfl⟩
  · exact hslots2d (hc + k - 1) (by omega) (by omega)
  · intro j hj1 hj2
    exact hslots2d j hj2 (by omega)

theorem waterfall_ring_buffer_spec_witness :
    0 < 1 ∧ (WaterfallGLState.mk 1 (fun _ => []) (fun _ => 0) 0 none).fftSize ≠ 0 ∧
    (∀ j : ℕ, ((fun _ : ℕ => ((0 : ℝ), [(5 : ℝ)])) j).2.length =
      (WaterfallGLState.mk 1 (fun _ => []) (fun _ => 0) 0 none).fftSize) ∧
    (WaterfallGLState.mk 1 (fun _ => []) (fun _ => 0) 0 none).slicePtr = 0 ∧
    ((∀ (st : WaterfallGLState) (freq : ℝ) (buffer : List ℝ), buffer.length ≠ 0 →
      (glNewData 1 st freq buffer).slicePtr = (st.slicePtr + 1) % 1 ∧
      (glNewData 1 st freq buffer).rows st.slicePtr = buffer ∧
      (glNewData 1 st freq buffer).freqs st.slicePtr = freq ∧
      (glNewData 1 st freq buffer).lastWrittenSlot = some st.slicePtr) ∧
    (glIngestN 1 (fun _ => ((0 : ℝ), [(5 : ℝ)]))
        (WaterfallGLState.mk 1 (fun _ => []) (fun _ => 0) 0 none) (1 + 0)).lastWrittenSlot =
      some ((1 + 0 - 1) % 1) ∧
    (∀ j, 0 ≤ j → j < 1 + 0 →
      (glIngestN 1 (fun _ => ((0 : ℝ), [(5 : ℝ)]))
          (WaterfallGLState.mk 1 (fun _ => []) (fun _ => 0) 0 none) (1 + 0)).freqs (j % 1) =
        ((fun _ : ℕ => ((0 : ℝ), [(5 : ℝ)])) j).1 ∧
      (glIngestN 1 (fun _ => ((0 : ℝ), [(5 : ℝ)]))
          (WaterfallGLState.mk 1 (fun _ => []) (fun _ => 0) 0 none) (1 + 0)).rows (j % 1) =
        ((fun _ : ℕ => ((0 : ℝ), [(5 : ℝ)])) j).2) ∧
    (∀ (st : Waterfall2DState) (freq : ℝ) (buffer : List ℝ), buffer.length ≠ 0 →
      buffer.length = st.canvasWidth → st.slices.length < 1 →
      (waterfall2DNewData 1 st freq buffer).slices = st.slices ++ [(buffer, freq)] ∧
      (waterfall2DNewData 1 st freq buffer).slicePtr = st.slicePtr) ∧
    (∀ (st : Waterfall2DState) (freq : ℝ) (buffer : List ℝ), buffer.length ≠ 0 →
      buffer.length = st.canvasWidth → ¬ st.slices.length < 1 →
      (waterfall2DNewData 1 st freq buffer).slices =
        st.slices.set st.slicePtr (buffer, freq) ∧
      (waterfall2DNewData 1 st freq buffer).slicePtr = (st.slicePtr + 1) % 1) ∧
    (w2dIngestN 1 (fun _ => ((0 : ℝ), [(5 : ℝ)]))
        ⟨(WaterfallGLState.mk 1 (fun _ => []) (fun _ => 0) 0 none).fftSize, false, [], 0⟩
        (1 + 0)).slices[((1 + 0 - 1) % 1)]? =
      some (((fun _ : ℕ => ((0 : ℝ), [(5 : ℝ)])) (1 + 0 - 1)).2,
        ((fun _ : ℕ => ((0 : ℝ), [(5 : ℝ)])) (1 + 0 - 1)).1) ∧
    (∀ j, 0 ≤ j → j < 1 + 0 →
      (w2dIngestN 1 (fun _ => ((0 : ℝ), [(5 : ℝ)]))
          ⟨(WaterfallGLState.mk 1 (fun _ => []) (fun _ => 0) 0 none).fftSize, false, [], 0⟩
          (1 + 0)).slices[(j % 1)]? =
        some (((fun _ : ℕ => ((0 : ℝ), [(5 : ℝ)])) j).2,
          ((fun _ : ℕ => ((0 : ℝ), [(5 : ℝ)])) j).1))) :=
  ⟨by norm_num, by norm_num, fun j => rfl, rfl,
   waterfall_ring_buffer_spec 1 0 (fun _ => ((0 : ℝ), [(5 : ℝ)]))
     (WaterfallGLState.mk 1 (fun _ => []) (fun _ => 0) 0 none) false
     (by norm_num) (by norm_num) (fun j => rfl) rfl⟩

lemma colorIndexOf_int (v : JSNum) (hv : v ≠ JSNum.nan) :
    ∃ m : ℤ, colorIndexOf v = JSNum.fin (m : ℝ) ∧ 0 ≤ m ∧ m ≤ 3 := by
  have hscale : (0 : ℝ) < (colorCountForScale : ℝ) := by
    norm_num [colorCountForScale, colors]
  have hidx : ((colorCountForIndex : ℕ) : ℝ) = 3 := by
    norm_num [colorCountForIndex, colors]
  cases v with
  | nan => exact absurd rfl hv
  | posInf =>
      refine ⟨3, ?_, by norm_num, le_refl 3⟩
      rw [colorIndexOf]
      rw [show jsMul JSNum.posInf (JSNum.fin ((colorCountForScale : ℕ) : ℝ)) =
        JSNum.posInf by rw [jsMul, if_pos hscale]]
      rw [show jsFloor JSNum.posInf = JSNum.posInf from rfl]
      rw [show jsMin (JSNum.fin ((colorCountForIndex : ℕ) : ℝ)) JSNum.posInf =
        JSNum.fin ((colorCountForIndex : ℕ) : ℝ) from rfl]
      rw [show jsMax (JSNum.fin 0) (JSNum.fin ((colorCountForIndex : ℕ) : ℝ)) =
        JSNum.fin (max 0 ((colorCountForIndex : ℕ) : ℝ)) from rfl]
      rw [hidx]
      norm_num
  | negInf =>
      refine ⟨0, ?_, le_refl 0, by norm_num⟩
      rw [colorIndexOf]
      rw [show jsMul JSNum.negInf (JSNum.fin ((colorCountForScale : ℕ) : ℝ)) =
        JSNum.negInf by rw [jsMul, if_pos hscale]]
      rw [show jsFloor JSNum.negInf = JSNum.negInf from rfl]
      rw [show jsMin (JSNum.fin ((colorCountForIndex : ℕ) : ℝ)) JSNum.negInf =
        JSNum.negInf from rfl]
      rw [show jsMax (JSNum.fin 0) JSNum.negInf = JSNum.fin 0 from rfl]
      norm_num
  | fin x =>
      refine ⟨max 0 (min 3 ⌊x * ((colorCountForScale : ℕ) : ℝ)⌋), ?_,
        le_max_left _ _, max_le (by norm_num) (min_le_left _ _)⟩
      rw [colorIndexOf]
      rw [show jsMul (JSNum.fin x) (JSNum.fin ((colorCountForScale : ℕ) : ℝ)) =
        JSNum.fin (x * ((colorCountForScale : ℕ) : ℝ)) from rfl]
      rw [show jsFloor (JSNum.fin (x * ((colorCountForScale : ℕ) : ℝ))) =
        JSNum.fin ((⌊x * ((colorCountForScale : ℕ) : ℝ)⌋ : ℤ) : ℝ) from rfl]
      rw [show jsMin (JSNum.fin ((colorCountForIndex : ℕ) : ℝ))
          (JSNum.fin ((⌊x * ((colorCountForScale : ℕ) : ℝ)⌋ : ℤ) : ℝ)) =
        JSNum.fin (min ((colorCountForIndex : ℕ) : ℝ)
          ((⌊x * ((colorCountForScale : ℕ) : ℝ)⌋ : ℤ) : ℝ)) from rfl]
      rw [show jsMax (JSNum.fin 0) (JSNum.fin (min ((colorCountForIndex : ℕ) : ℝ)
          ((⌊x * ((colorCountForScale : ℕ) : ℝ)⌋ : ℤ) : ℝ))) =
        JSNum.fin (max 0 (min ((colorCountForIndex : ℕ) : ℝ)
          ((⌊x * ((colorCountForScale : ℕ) : ℝ)⌋ : ℤ) : ℝ))) from rfl]
      rw [hidx]
      congr 1
      rw [Int.cast_max, Int.cast_min]
      norm_num

lemma jsIndexColors_int (m : ℤ) (h0 : 0 ≤ m) (h5 : m.toNat < colors.length) :
    ∃ c, jsIndexColors (JSNum.fin (m : ℝ)) = some c := by
  rw [show jsIndexColors (JSNum.fin (m : ℝ)) =
    (if 0 ≤ (m : ℝ) ∧ (m : ℝ) = ((⌊(m : ℝ)⌋ : ℤ) : ℝ) then colors[(⌊(m : ℝ)⌋).toNat]?
     else none) from rfl]
  rw [if_pos ⟨by exact_mod_cast h0, by rw [Int.floor_intCast]⟩, Int.floor_intCast]
  exact ⟨_, List.getElem?_eq_getElem h5⟩

/-- C10 (amended): for every input value v other than NaN, including v < 0,
v > 1, and the two infinities, interpolateColor clamps its color-table index
to an integer in [0, colors.length - 2], never reads outside the gradient
control-point table, and writes 255 as the fourth (alpha) output; for
v = NaN the computed index is itself NaN and the table lookup yields
undefined, so the call throws before writing anything. -/
theorem interpolateColor_clamped (v : JSNum) (hv : v ≠ JSNum.nan) :
    (∃ x : ℝ, colorIndexOf v = JSNum.fin x ∧ 0 ≤ x ∧ x ≤ (colors.length : ℝ) - 2) ∧
    (∃ r g b, interpolateColor v = some (r, g, b, 255)) := by
  obtain ⟨m, heq, hm0, hm3⟩ := colorIndexOf_int v hv
  have hlen : colors.length = 5 := rfl
  have hmt : m.toNat < colors.length := by omega
  have hmt1 : (m + 1).toNat < colors.length := by omega
  obtain ⟨c0, hc0⟩ := jsIndexColors_int m hm0 hmt
  obtain ⟨c1, hc1⟩ := jsIndexColors_int (m + 1) (by omega) hmt1
  constructor
  · refine ⟨(m : ℝ), heq, by exact_mod_cast hm0, ?_⟩
    have h3 : (m : ℝ) ≤ 3 := by exact_mod_cast hm3
    rw [hlen, show ((5 : ℕ) : ℝ) - 2 = 3 by norm_num]
    exact h3
  · rw [interpolateColor]
    rw [heq]
    rw [show jsAdd (JSNum.fin (m : ℝ)) (JSNum.fin 1) = JSNum.fin (((m + 1 : ℤ)) : ℝ) by
      rw [show jsAdd (JSNum.fin (m : ℝ)) (JSNum.fin 1) = JSNum.fin ((m : ℝ) + 1) from rfl]
      push_cast
      ring_nf]
    rw [hc0, hc1]
    exact ⟨_, _, _, rfl⟩

theorem interpolateColor_clamped_witness :
    JSNum.posInf ≠ JSNum.nan ∧
    ((∃ x : ℝ, colorIndexOf JSNum.posInf = JSNum.fin x ∧ 0 ≤ x ∧
        x ≤ (colors.length : ℝ) - 2) ∧
      (∃ r g b, interpolateColor JSNum.posInf = some (r, g, b, 255))) :=
  ⟨fun h => JSNum.noConfusion h,
   interpolateColor_clamped JSNum.posInf (fun h => JSNum.noConfusion h)⟩

/-- C10 counterexample: at input NaN the computed color-table index is NaN,
not a clamped in-range value, and interpolateColor throws on the undefined
table lookup before any output (in particular the alpha byte) is written. -/
theorem interpolateColor_nan_cex :
    colorIndexOf JSNum.nan = JSNum.nan ∧
    (∀ x : ℝ, colorIndexOf JSNum.nan ≠ JSNum.fin x) ∧
    interpolateColor JSNum.nan = none := by
  have h1 : colorIndexOf JSNum.nan = JSNum.nan := rfl
  refine ⟨h1, ?_, ?_⟩
  · intro x h
    rw [h1] at h
    exact JSNum.noConfusion h
  · rw [interpolateColor, h1]
    rfl


/-- C1: for every viewport width W > 0, bandwidth B > 0, zoom in [1, maxZoom],
and cursor pixel x in [0, W], if neither the zoom nor the scroll adjustment is
clamped, the frequency mapped to pixel x by the coordinate model before
changeZoom(delta, x) equals the frequency mapped to pixel x after the call —
exactly, in real arithmetic, hence within the claimed 1e-6 relative
tolerance. -/
theorem changeZoom_preserves_cursor_freq (quant : ℝ → ℝ) (e : ViewEnv) (s : ViewState)
    (delta x : ℝ) (hW : 0 < e.pixelWidth) (hB : 0 < e.bandwidth)
    (hz1 : 1 ≤ s.zoom) (hzmax : s.zoom ≤ maxZoom e)
    (hx0 : 0 ≤ x) (hxW : x ≤ e.pixelWidth)
    (hzlo : 1 ≤ s.zoom * Real.exp (-delta * 0.0005))
    (hzhi : s.zoom * Real.exp (-delta * 0.0005) ≤ maxZoom e)
    (hslo : 0 ≤ scrollUnclamped e s delta x)
    (hshi : scrollUnclamped e s delta x ≤ e.pixelWidth * newZoom e s delta - e.pixelWidth) :
    freqAtPixel e (changeZoom quant e s delta x) x = freqAtPixel e s x ∧
    |freqAtPixel e (changeZoom quant e s delta x) x - freqAtPixel e s x| ≤
      1e-6 * |freqAtPixel e s x| := by
  have hzpos : (0 : ℝ) < s.zoom := lt_of_lt_of_le one_pos hz1
  have hz2eq : newZoom e s delta = s.zoom * Real.exp (-delta * 0.0005) := by
    rw [newZoom, max_eq_right hzlo, min_eq_right hzhi]
  have hz2pos : 0 < newZoom e s delta := by
    rw [hz2eq]
    exact mul_pos hzpos (Real.exp_pos _)
  have hp1 : pixelsPerHertz e s.zoom ≠ 0 := by
    have : 0 < pixelsPerHertz e s.zoom := by
      rw [pixelsPerHertz]
      exact mul_pos (div_pos hW hB) hzpos
    exact this.ne'
  have hp2 : pixelsPerHertz e (newZoom e s delta) ≠ 0 := by
    have : 0 < pixelsPerHertz e (newZoom e s delta) := by
      rw [pixelsPerHertz]
      exact mul_pos (div_pos hW hB) hz2pos
    exact this.ne'
  have hsc : scrollAdjusted e s delta x = scrollUnclamped e s delta x := by
    rw [scrollAdjusted, min_eq_right hshi, max_eq_right hslo]
  have hs1 : freqAtPixel e ⟨newZoom e s delta, s.scrollLeft, s.fractionalScroll⟩ x =
      leftFreq e + (s.scrollLeft + s.fractionalScroll + x) /
        pixelsPerHertz e (newZoom e s delta) :=
    freqAtPixel_eq e ⟨newZoom e s delta, s.scrollLeft, s.fractionalScroll⟩ x
      hW.ne' hB.ne' hz2pos.ne'
  have hunf : scrollUnclamped e s delta x =
      s.scrollLeft + s.fractionalScroll +
        (freqAtPixel e s x - (leftFreq e + (s.scrollLeft + s.fractionalScroll + x) /
            pixelsPerHertz e (newZoom e s delta))) * pixelsPerHertz e (newZoom e s delta) := by
    simp only [scrollUnclamped]
    rw [hs1]
  have hbefore : freqAtPixel e s x =
      leftFreq e + (s.scrollLeft + s.fractionalScroll + x) / pixelsPerHertz e s.zoom :=
    freqAtPixel_eq e s x hW.ne' hB.ne' hzpos.ne'
  have hafter : freqAtPixel e (changeZoom quant e s delta x) x =
      leftFreq e + (scrollUnclamped e s delta x + x) /
        pixelsPerHertz e (newZoom e s delta) := by
    have h0 := freqAtPixel_eq e (changeZoom quant e s delta x) x hW.ne' hB.ne' hz2pos.ne'
    rw [h0]
    show leftFreq e + (quant (scrollAdjusted e s delta x) +
        (scrollAdjusted e s delta x - quant (scrollAdjusted e s delta x)) + x) /
        pixelsPerHertz e (newZoom e s delta) = _
    rw [hsc]
    ring
  have hmain : freqAtPixel e (changeZoom quant e s delta x) x = freqAtPixel e s x := by
    rw [hafter, hunf, hbefore]
    field_simp
    ring
  exact ⟨hmain, by rw [hmain, sub_self, abs_zero]; positivity⟩


theorem changeZoom_preserves_cursor_freq_witness :
    0 < (ViewEnv.mk 100000 0 1 60).pixelWidth ∧
    0 < (ViewEnv.mk 100000 0 1 60).bandwidth ∧
    1 ≤ (ViewState.mk (1 : ℝ) 0 0).zoom ∧
    (ViewState.mk (1 : ℝ) 0 0).zoom ≤ maxZoom (ViewEnv.mk 100000 0 1 60) ∧
    (0 : ℝ) ≤ 0 ∧
    (0 : ℝ) ≤ (ViewEnv.mk 100000 0 1 60).pixelWidth ∧
    1 ≤ (ViewState.mk (1 : ℝ) 0 0).zoom * Real.exp (-(0 : ℝ) * 0.0005) ∧
    (ViewState.mk (1 : ℝ) 0 0).zoom * Real.exp (-(0 : ℝ) * 0.0005) ≤
      maxZoom (ViewEnv.mk 100000 0 1 60) ∧
    0 ≤ scrollUnclamped (ViewEnv.mk 100000 0 1 60) (ViewState.mk 1 0 0) 0 0 ∧
    scrollUnclamped (ViewEnv.mk 100000 0 1 60) (ViewState.mk 1 0 0) 0 0 ≤
      (ViewEnv.mk 100000 0 1 60).pixelWidth *
        newZoom (ViewEnv.mk 100000 0 1 60) (ViewState.mk 1 0 0) 0 -
        (ViewEnv.mk 100000 0 1 60).pixelWidth ∧
    (freqAtPixel (ViewEnv.mk 100000 0 1 60)
        (changeZoom id (ViewEnv.mk 100000 0 1 60) (ViewState.mk 1 0 0) 0 0) 0 =
      freqAtPixel (ViewEnv.mk 100000 0 1 60) (ViewState.mk 1 0 0) 0 ∧
    |freqAtPixel (ViewEnv.mk 100000 0 1 60)
        (changeZoom id (ViewEnv.mk 100000 0 1 60) (ViewState.mk 1 0 0) 0 0) 0 -
      freqAtPixel (ViewEnv.mk 100000 0 1 60) (ViewState.mk 1 0 0) 0| ≤
      1e-6 * |freqAtPixel (ViewEnv.mk 100000 0 1 60) (ViewState.mk 1 0 0) 0|) := by
  have hmz1 : (1 : ℝ) ≤ maxZoom (ViewEnv.mk 100000 0 1 60) := by
    rw [maxZoom]
    exact le_max_left _ _
  have hexp : (ViewState.mk (1 : ℝ) 0 0).zoom * Real.exp (-(0 : ℝ) * 0.0005) = 1 := by
    simp
  have hz2 : newZoom (ViewEnv.mk 100000 0 1 60) (ViewState.mk 1 0 0) 0 = 1 := by
    rw [newZoom, hexp, max_self]
    exact min_eq_right hmz1
  have hsu : scrollUnclamped (ViewEnv.mk 100000 0 1 60) (ViewState.mk 1 0 0) 0 0 = 0 := by
    simp [scrollUnclamped, hz2]
  refine ⟨by norm_num, by norm_num, le_refl 1, hmz1, le_refl 0, by norm_num,
    le_of_eq hexp.symm, le_of_eq_of_le hexp hmz1, le_of_eq hsu.symm,
    ?_, ?_⟩
  · rw [hsu, hz2]
    norm_num
  · exact changeZoom_preserves_cursor_freq id (ViewEnv.mk 100000 0 1 60)
      (ViewState.mk 1 0 0) 0 0 (by norm_num) (by norm_num) (le_refl 1) hmz1
      (le_refl 0) (by norm_num) (le_of_eq hexp.symm) (le_of_eq_of_le hexp hmz1)
      (le_of_eq hsu.symm) (by rw [hsu, hz2]; norm_num)

end ShinySDR
